import Mathlib

/-!
Verification of the walk-counting engine in `knight_dialer.py`.

The Python module stores the knight-move graph on a phone keypad twice
(adjacency list `NEIGHBORS_MAP`, adjacency matrix `NEIGHBORS_MATRIX`) and
counts length-`num_hops` walks from a start key with five algorithms:
explicit enumeration (`yield_sequences` / `count_sequences`), plain
recursion (`count_sequences_rec`), memoized recursion
(`count_sequences_mem`), bottom-up dynamic programming
(`count_sequences_dyn`), and matrix exponentiation by repeated squaring
(`matrix_multiply` / `count_sequences_log`).

The definitions below are a shallow embedding of that code: Python lists
and tuples become `List Nat`, the keypad dict keyed by `0..9` becomes a
`List (List Nat)` whose row index is the key, dict lookup in the memo
cache becomes lookup in an association list, the `while`/`for` loops
become recursion over the loop counter respectively folds over the
iterated list, and Python's unbounded non-negative integers become `Nat`
(one extra variant, `count_sequences_dynZ`, keeps the hop count as `Int`
to study the behaviour of `count_sequences_dyn` on negative inputs,
which are representable in Python).  `print` calls are I/O only and are
dropped.
-/

/-- The adjacency list `NEIGHBORS_MAP` of `knight_dialer.py` (dict from
key to tuple of neighbors).  Keys outside `0..9` raise `KeyError` in
Python; the catch-all `[]` is never exercised by the theorems below,
which restrict start keys to `0..9` (a set closed under neighbors). -/
def NEIGHBORS_MAP : Nat → List Nat
  | 1 => [6, 8]
  | 2 => [7, 9]
  | 3 => [4, 8]
  | 4 => [3, 9, 0]
  | 5 => []
  | 6 => [1, 7, 0]
  | 7 => [2, 6]
  | 8 => [1, 3]
  | 9 => [2, 4]
  | 0 => [4, 6]
  | _ => []

/-- `neighbors(position)` of `knight_dialer.py`. -/
def neighbors (position : Nat) : List Nat := NEIGHBORS_MAP position

/-- The adjacency matrix `NEIGHBORS_MATRIX` of `knight_dialer.py`, a dict
from key `0..9` to a 10-tuple of 0/1 weights, embedded as the list of its
rows in key order.  Row 3 is transcribed exactly as in the source:
`(0, 0, 0, 1, 0, 0, 0, 0, 1, 0)`. -/
def NEIGHBORS_MATRIX : List (List Nat) :=
  [ [0, 0, 0, 0, 1, 0, 1, 0, 0, 0],
    [0, 0, 0, 0, 0, 0, 1, 0, 1, 0],
    [0, 0, 0, 0, 0, 0, 0, 1, 0, 1],
    [0, 0, 0, 1, 0, 0, 0, 0, 1, 0],
    [1, 0, 0, 1, 0, 0, 0, 0, 0, 1],
    [0, 0, 0, 0, 0, 0, 0, 0, 0, 0],
    [1, 1, 0, 0, 0, 0, 0, 1, 0, 0],
    [0, 0, 1, 0, 0, 0, 1, 0, 0, 0],
    [0, 1, 0, 1, 0, 0, 0, 0, 0, 0],
    [0, 0, 1, 0, 1, 0, 0, 0, 0, 0] ]

/-- `yield_sequences(starting_position, num_hops, sequence)`: the lazy
generator of walks, embedded as the list of the walks it yields, in
yield order.  The `sequence=None` default is handled by the caller
`count_sequences` below, which passes `[starting_position]`. -/
def yield_sequences (starting_position : Nat) (num_hops : Nat) (sequence : List Nat) :
    List (List Nat) :=
  match num_hops with
  | 0 => [sequence]
  | h + 1 =>
    (neighbors starting_position).flatMap
      (fun neighbor => yield_sequences neighbor h (sequence ++ [neighbor]))

/-- `count_sequences(starting_position, num_hops)`: iterates over the
generator and counts the walks (the `print` of each walk is I/O only). -/
def count_sequences (starting_position num_hops : Nat) : Nat :=
  (yield_sequences starting_position num_hops [starting_position]).length

/-- `count_sequences_rec(start_position, num_hops)`: the plain recursive
counter; the `for` loop accumulating `num_sequences` is a left fold. -/
def count_sequences_rec : Nat → Nat → Nat
  | _, 0 => 1
  | start_position, num_hops + 1 =>
    (neighbors start_position).foldl
      (fun num_sequences position => num_sequences + count_sequences_rec position num_hops) 0

/-- The memo cache of `count_sequences_mem`: a Python dict keyed by
`(position, num_hops)` pairs, embedded as an association list (newest
entry first).  The cache-shape theorems below show its keys stay
duplicate-free, so association-list lookup models dict lookup. -/
abbrev Cache := List ((Nat × Nat) × Nat)

/-- Dict membership test plus lookup `cache[(position, num_hops)]` used
by the memoized helper. -/
def cache_lookup (cache : Cache) (key : Nat × Nat) : Option Nat :=
  match cache with
  | [] => none
  | entry :: rest => if entry.1 = key then some entry.2 else cache_lookup rest key

/-- The inner `helper(position, num_hops)` of `count_sequences_mem`,
with the closure-captured mutable `cache` made an explicit argument and
the updated cache returned alongside the count.  Note the source returns
`1` for `num_hops == 0` without inserting anything into the cache; only
the recursive branch stores its result. -/
def helper (position : Nat) (num_hops : Nat) (cache : Cache) : Nat × Cache :=
  match cache_lookup cache (position, num_hops) with
  | some v => (v, cache)
  | none =>
    match num_hops with
    | 0 => (1, cache)
    | h + 1 =>
      let r := (neighbors position).foldl
        (fun acc neighbor =>
          let r2 := helper neighbor h acc.2
          (acc.1 + r2.1, r2.2))
        (0, cache)
      (r.1, ((position, h + 1), r.1) :: r.2)

/-- `count_sequences_mem(start_position, num_hops)`: runs the helper on
a fresh empty cache and returns the count. -/
def count_sequences_mem (start_position num_hops : Nat) : Nat :=
  (helper start_position num_hops []).1

/-- One iteration of the `while` body of `count_sequences_dyn`: rebuild
`current_case = [0] * 10`, then for every `position` in `range(0, 10)`
and every neighbor add `prior_case[neighbor]` into
`current_case[position]`. -/
def dyn_step (prior_case : List Nat) : List Nat :=
  (List.range 10).foldl
    (fun current_case position =>
      (neighbors position).foldl
        (fun cc neighbor => cc.set position (cc.getD position 0 + prior_case.getD neighbor 0))
        current_case)
    (List.replicate 10 0)

/-- The `while current_num_hops <= num_hops` loop of
`count_sequences_dyn`, returning the final `current_case`.  After each
body `prior_case = current_case`, so both loop-carried lists coincide on
every iteration after the first. -/
def dyn_loop (prior_case current_case : List Nat) (current_num_hops num_hops : Nat) :
    List Nat :=
  if current_num_hops ≤ num_hops then
    dyn_loop (dyn_step prior_case) (dyn_step prior_case) (current_num_hops + 1) num_hops
  else current_case
termination_by num_hops + 1 - current_num_hops

/-- `count_sequences_dyn(start_position, num_hops)`:
`prior_case = [1] * 10`, `current_case = [0] * 10`,
`current_num_hops = 1`, run the loop, return
`current_case[start_position]`. -/
def count_sequences_dyn (start_position num_hops : Nat) : Nat :=
  (dyn_loop (List.replicate 10 1) (List.replicate 10 0) 1 num_hops).getD start_position 0

/-- The same `while` loop with the hop counters kept as `Int`, the
faithful type for Python's signed integers; needed to evaluate
`count_sequences_dyn` on negative `num_hops`, where the guard
`current_num_hops <= num_hops` is false at once. -/
def dyn_loopZ (prior_case current_case : List Nat) (current_num_hops num_hops : Int) :
    List Nat :=
  if current_num_hops ≤ num_hops then
    dyn_loopZ (dyn_step prior_case) (dyn_step prior_case) (current_num_hops + 1) num_hops
  else current_case
termination_by (num_hops + 1 - current_num_hops).toNat

/-- `count_sequences_dyn` with the Python-faithful `Int` hop count; on
non-negative inputs it runs exactly like `count_sequences_dyn`. -/
def count_sequences_dynZ (start_position : Nat) (num_hops : Int) : Nat :=
  (dyn_loopZ (List.replicate 10 1) (List.replicate 10 0) 1 num_hops).getD start_position 0

/-- `matrix_multiply(A, B)`: the standard triple-nested-loop dense
product, with `result` initialized to zeros and accumulated with `+=`. -/
def matrix_multiply (A B : List (List Nat)) : List (List Nat) :=
  (List.range A.length).map (fun row =>
    (List.range (B.getD 0 []).length).map (fun col =>
      (List.range B.length).foldl
        (fun acc i => acc + (A.getD row []).getD i 0 * (B.getD i []).getD col 0) 0))

/-- The binary digits of a positive `n`, least significant first: the
characters of `bin(n)[2:]` reversed, for `n ≥ 1`. -/
def natBits : Nat → List Nat
  | 0 => []
  | n + 1 => (n + 1) % 2 :: natBits ((n + 1) / 2)
decreasing_by simp_wf; omega

/-- The bit list iterated by `count_sequences_log`:
`reversed(bin(num_hops)[2:])`.  Python's `bin(0)` is `"0b0"`, so zero
contributes the single bit `0`. -/
def pyBits (n : Nat) : List Nat := if n = 0 then [0] else natBits n

/-- The 10x10 identity matrix literal built by `count_sequences_log`:
`[[1 if i == j else 0 for i in range(10)] for j in range(10)]`. -/
def ident10 : List (List Nat) :=
  (List.range 10).map (fun j => (List.range 10).map (fun i => if i = j then 1 else 0))

/-- The `for bit_num, bit in enumerate(...)` loop of
`count_sequences_log`: at bit index 0 `power_of_2` is (a deep copy of)
`NEIGHBORS_MATRIX`, afterwards it is squared; whenever the current bit
is 1, `accum` is multiplied by the current `power_of_2`.  The initial
`power_of_2` argument is a placeholder: Python leaves the variable
unbound until the first iteration, which never reads it. -/
def log_loop : List Nat → Nat → List (List Nat) → List (List Nat) → List (List Nat)
  | [], _, accum, _ => accum
  | bit :: rest, bit_num, accum, power_of_2 =>
    let p := if bit_num = 0 then NEIGHBORS_MATRIX else matrix_multiply power_of_2 power_of_2
    let a := if bit = 1 then matrix_multiply accum p else accum
    log_loop rest (bit_num + 1) a p

/-- `count_sequences_log(start_position, num_hops)`: run the squaring
loop starting from the identity, multiply by the all-ones column vector
`[[1]] * 10`, and read off row `start_position`. -/
def count_sequences_log (start_position num_hops : Nat) : Nat :=
  ((matrix_multiply (log_loop (pyBits num_hops) 0 ident10 []) (List.replicate 10 [1])).getD
    start_position []).getD 0 0

/-- Value of a little-endian bit list; specification device for
`pyBits`. -/
def bitsVal : List Nat → Nat
  | [] => 0
  | b :: rest => b + 2 * bitsVal rest

/-- Read a row-list matrix as a Mathlib matrix (absent entries read 0);
specification device for `matrix_multiply`. -/
def toMat (L : List (List Nat)) : Matrix (Fin 10) (Fin 10) ℕ :=
  Matrix.of fun i j => (L.getD i.val []).getD j.val 0

/-- Well-formedness of a row-list matrix: 10 rows of length 10. -/
def MatWF (L : List (List Nat)) : Prop :=
  L.length = 10 ∧ ∀ r ∈ L, r.length = 10

/-- Every entry of a cache maps its key `(position, hops)` to the value
of the plain recursive counter there; the invariant maintained by
`helper`. -/
def CacheOK (c : Cache) : Prop :=
  ∀ e ∈ c, e.2 = count_sequences_rec e.1.1 e.1.2

/-- The keys of a cache, newest first. -/
def cacheKeys (c : Cache) : List (Nat × Nat) := c.map Prod.fst

/-! ### Generic list lemmas -/

lemma foldl_add_eq_sum (l : List Nat) (f : Nat → Nat) :
    ∀ a : Nat, l.foldl (fun acc x => acc + f x) a = a + (l.map f).sum := by
  induction l with
  | nil => intro a; simp
  | cons x t ih => intro a; simp [List.foldl_cons, ih, add_assoc]

lemma getD_zero_of_all_zero (l : List Nat) (h : ∀ x ∈ l, x = 0) (i : Nat) :
    l.getD i 0 = 0 := by
  rw [List.getD_eq_getElem?_getD]
  rcases hx : l[i]? with _ | v
  · rfl
  · have hv : v ∈ l := by
      rcases List.getElem?_eq_some_iff.mp hx with ⟨hlt, hg⟩
      exact hg ▸ List.getElem_mem hlt
    simp [h v hv]

lemma getD_replicate_zero (i : Nat) : (List.replicate 10 (0 : Nat)).getD i 0 = 0 :=
  getD_zero_of_all_zero _ (fun _ hx => List.eq_of_mem_replicate hx) i

lemma getD_set_ne (l : List Nat) (i j a : Nat) (h : i ≠ j) :
    (l.set i a).getD j 0 = l.getD j 0 := by
  simp [List.getD_eq_getElem?_getD, List.getElem?_set_ne h]

lemma getD_map_range {α : Type} (n i : Nat) (f : Nat → α) (d : α) (h : i < n) :
    ((List.range n).map f).getD i d = f i := by
  rw [List.getD_eq_getElem?_getD, List.getElem?_map, List.getElem?_range h]
  rfl

lemma sum_map_range (n : Nat) (f : Nat → Nat) :
    ((List.range n).map f).sum = ∑ i ∈ Finset.range n, f i := by
  induction n with
  | zero => simp
  | succ m ih =>
    rw [List.range_succ, List.map_append, List.sum_append, Finset.sum_range_succ, ih]
    simp

/-! ### The enumeration oracle agrees with the recursive counter -/

lemma count_sequences_rec_succ (p h : Nat) :
    count_sequences_rec p (h + 1) =
      ((neighbors p).map (fun n => count_sequences_rec n h)).sum := by
  rw [count_sequences_rec, foldl_add_eq_sum, Nat.zero_add]

lemma yield_sequences_length (h : Nat) :
    ∀ (s : Nat) (seq : List Nat),
      (yield_sequences s h seq).length = count_sequences_rec s h := by
  induction h with
  | zero => intro s seq; rfl
  | succ h ih =>
    intro s seq
    rw [yield_sequences, List.length_flatMap, count_sequences_rec_succ]
    exact congrArg List.sum (List.map_congr_left (fun n _ => ih n (seq ++ [n])))

lemma count_sequences_eq_rec (s h : Nat) :
    count_sequences s h = count_sequences_rec s h :=
  yield_sequences_length h s [s]

/-! ### Memoized counter: correctness and cache shape -/

lemma cache_lookup_mem {c : Cache} {k : Nat × Nat} {v : Nat}
    (h : cache_lookup c k = some v) : (k, v) ∈ c := by
  induction c with
  | nil => cases h
  | cons e rest ih =>
    rw [cache_lookup] at h
    by_cases he : e.1 = k
    · rw [if_pos he] at h
      have : e = (k, v) := by
        cases e
        simp_all
      exact this ▸ List.mem_cons_self _ _
    · rw [if_neg he] at h
      exact List.mem_cons_of_mem _ (ih h)

lemma cache_lookup_none_not_mem {c : Cache} {k : Nat × Nat}
    (h : cache_lookup c k = none) : k ∉ cacheKeys c := by
  induction c with
  | nil => simp [cacheKeys]
  | cons e rest ih =>
    rw [cache_lookup] at h
    by_cases he : e.1 = k
    · rw [if_pos he] at h
      cases h
    · rw [if_neg he] at h
      intro hk
      rcases List.mem_cons.mp hk with h1 | h1
      · exact he h1.symm
      · exact ih h h1

lemma helper_correct (h : Nat) : ∀ (p : Nat) (c : Cache), CacheOK c →
    (helper p h c).1 = count_sequences_rec p h ∧ CacheOK (helper p h c).2 := by
  induction h with
  | zero =>
    intro p c hc
    rw [helper]
    rcases hl : cache_lookup c (p, 0) with _ | v
    · exact ⟨rfl, hc⟩
    · exact ⟨hc _ (cache_lookup_mem hl), hc⟩
  | succ h ih =>
    intro p c hc
    have aux : ∀ (l : List Nat) (s : Nat) (c0 : Cache), CacheOK c0 →
        (l.foldl (fun acc neighbor =>
            let r2 := helper neighbor h acc.2
            (acc.1 + r2.1, r2.2)) (s, c0)).1
          = s + (l.map (fun n => count_sequences_rec n h)).sum ∧
        CacheOK (l.foldl (fun acc neighbor =>
            let r2 := helper neighbor h acc.2
            (acc.1 + r2.1, r2.2)) (s, c0)).2 := by
      intro l
      induction l with
      | nil => intro s c0 hc0; exact ⟨by simp, hc0⟩
      | cons n t iht =>
        intro s c0 hc0
        obtain ⟨hv, hco⟩ := ih n c0 hc0
        obtain ⟨hv2, hco2⟩ := iht (s + (helper n h c0).1) (helper n h c0).2 hco
        constructor
        · rw [List.foldl_cons]
          dsimp only
          rw [hv2, hv, List.map_cons, List.sum_cons, add_assoc]
        · rw [List.foldl_cons]
          dsimp only
          exact hco2
    rw [helper]
    rcases hl : cache_lookup c (p, h + 1) with _ | v
    · dsimp only
      obtain ⟨h1, h2⟩ := aux (neighbors p) 0 c hc
      have hval : ((neighbors p).foldl (fun acc neighbor =>
          let r2 := helper neighbor h acc.2
          (acc.1 + r2.1, r2.2)) (0, c)).1 = count_sequences_rec p (h + 1) := by
        rw [h1, Nat.zero_add, ← count_sequences_rec_succ]
      refine ⟨hval, ?_⟩
      intro e he
      rcases List.mem_cons.mp he with h3 | h3
      · rw [h3]
        exact hval
      · exact h2 e h3
    · exact ⟨hc _ (cache_lookup_mem hl), hc⟩

lemma count_sequences_mem_eq_rec (s h : Nat) :
    count_sequences_mem s h = count_sequences_rec s h :=
  (helper_correct h s [] (fun e he => absurd he (List.not_mem_nil e))).1

lemma cacheKeys_append (a b : Cache) : cacheKeys (a ++ b) = cacheKeys a ++ cacheKeys b :=
  List.map_append _ a b

lemma helper_cache_inv (h : Nat) : ∀ (p : Nat) (c : Cache), ∃ pre,
    (helper p h c).2 = pre ++ c ∧
    (∀ k ∈ cacheKeys pre, 1 ≤ k.2 ∧ k.2 ≤ h ∧ k ∉ cacheKeys c) ∧
    (cacheKeys pre).Nodup := by
  induction h with
  | zero =>
    intro p c
    rw [helper]
    rcases hl : cache_lookup c (p, 0) with _ | v
    · exact ⟨[], rfl, by simp [cacheKeys], List.nodup_nil⟩
    · exact ⟨[], rfl, by simp [cacheKeys], List.nodup_nil⟩
  | succ h ih =>
    intro p c
    have aux : ∀ (l : List Nat) (s : Nat) (c0 : Cache), ∃ pre,
        (l.foldl (fun acc neighbor =>
            let r2 := helper neighbor h acc.2
            (acc.1 + r2.1, r2.2)) (s, c0)).2 = pre ++ c0 ∧
        (∀ k ∈ cacheKeys pre, 1 ≤ k.2 ∧ k.2 ≤ h ∧ k ∉ cacheKeys c0) ∧
        (cacheKeys pre).Nodup := by
      intro l
      induction l with
      | nil => intro s c0; exact ⟨[], rfl, by simp [cacheKeys], List.nodup_nil⟩
      | cons n t iht =>
        intro s c0
        obtain ⟨pre1, he1, hk1, hn1⟩ := ih n c0
        obtain ⟨pre2, he2, hk2, hn2⟩ := iht (s + (helper n h c0).1) (helper n h c0).2
        refine ⟨pre2 ++ pre1, ?_, ?_, ?_⟩
        · rw [List.foldl_cons]
          dsimp only
          rw [he2, he1, List.append_assoc]
        · intro k hk
          rw [cacheKeys_append] at hk
          rcases List.mem_append.mp hk with hk' | hk'
          · obtain ⟨ha, hb, hcnot⟩ := hk2 k hk'
            rw [he1, cacheKeys_append] at hcnot
            exact ⟨ha, hb, fun hcc => hcnot (List.mem_append.mpr (Or.inr hcc))⟩
          · exact hk1 k hk'
        · rw [cacheKeys_append, List.nodup_append]
          refine ⟨hn2, hn1, ?_⟩
          intro a ha hb
          obtain ⟨_, _, hcnot⟩ := hk2 a ha
          rw [he1, cacheKeys_append] at hcnot
          exact hcnot (List.mem_append.mpr (Or.inl hb))
    rw [helper]
    rcases hl : cache_lookup c (p, h + 1) with _ | v
    · dsimp only
      obtain ⟨pre0, he0, hk0, hn0⟩ := aux (neighbors p) 0 c
      rw [he0]
      refine ⟨((p, h + 1), ((neighbors p).foldl (fun acc neighbor =>
          let r2 := helper neighbor h acc.2
          (acc.1 + r2.1, r2.2)) (0, c)).1) :: pre0, ?_, ?_, ?_⟩
      · rw [List.cons_append]
      · intro k hk
        simp only [cacheKeys, List.map_cons] at hk
        rcases List.mem_cons.mp hk with hk' | hk'
        · subst hk'
          exact ⟨Nat.le_add_left 1 h, Nat.le_refl _, cache_lookup_none_not_mem hl⟩
        · obtain ⟨ha, hb, hcnot⟩ := hk0 k hk'
          exact ⟨ha, Nat.le_succ_of_le hb, hcnot⟩
      · simp only [cacheKeys, List.map_cons, List.nodup_cons]
        refine ⟨?_, hn0⟩
        intro hmem
        obtain ⟨_, hb, _⟩ := hk0 _ hmem
        simp at hb
    · exact ⟨[], rfl, by simp [cacheKeys], List.nodup_nil⟩

/-! ### Dynamic-programming counter: loop characterization -/

lemma dyn_loop_eq (fuel : Nat) : ∀ (prior current : List Nat) (cur n : Nat),
    n + 1 - cur = fuel →
    dyn_loop prior current cur n = if fuel = 0 then current else dyn_step^[fuel] prior := by
  induction fuel with
  | zero =>
    intro prior current cur n h
    rw [dyn_loop, if_neg (by omega), if_pos rfl]
  | succ f ihf =>
    intro prior current cur n h
    rw [dyn_loop, if_pos (by omega),
      ihf (dyn_step prior) (dyn_step prior) (cur + 1) n (by omega)]
    by_cases hf : f = 0
    · subst hf
      simp [Function.iterate_one]
    · rw [if_neg hf, if_neg (by omega), ← Function.iterate_succ_apply]

lemma count_sequences_dyn_zero (s : Nat) : count_sequences_dyn s 0 = 0 := by
  rw [count_sequences_dyn, dyn_loop, if_neg (by omega)]
  exact getD_replicate_zero s

lemma count_sequences_dyn_succ (s n : Nat) :
    count_sequences_dyn s (n + 1) =
      (dyn_step^[n + 1] (List.replicate 10 1)).getD s 0 := by
  rw [count_sequences_dyn, dyn_loop_eq (n + 1) _ _ 1 (n + 1) (by omega), if_neg (by omega)]

lemma inner_foldl_getD5 (prior : List Nat) (p : Nat) (hp : p ≠ 5) :
    ∀ (l : List Nat) (cc : List Nat),
      (l.foldl (fun cc neighbor =>
          cc.set p (cc.getD p 0 + prior.getD neighbor 0)) cc).getD 5 0 = cc.getD 5 0 := by
  intro l
  induction l with
  | nil => intro cc; rfl
  | cons n t ih =>
    intro cc
    rw [List.foldl_cons, ih, getD_set_ne _ _ _ _ hp]

lemma outer_foldl_getD5 (prior : List Nat) : ∀ (ps : List Nat) (cc : List Nat),
    cc.getD 5 0 = 0 →
    (ps.foldl (fun current_case position =>
        (neighbors position).foldl (fun cc neighbor =>
          cc.set position (cc.getD position 0 + prior.getD neighbor 0)) current_case)
      cc).getD 5 0 = 0 := by
  intro ps
  induction ps with
  | nil => intro cc hcc; exact hcc
  | cons p t ih =>
    intro cc hcc
    rw [List.foldl_cons]
    by_cases hp : p = 5
    · subst hp
      exact ih _ hcc
    · exact ih _ ((inner_foldl_getD5 prior p hp (neighbors p) cc).trans hcc)

lemma dyn_step_getD5 (prior : List Nat) : (dyn_step prior).getD 5 0 = 0 := by
  rw [dyn_step]
  exact outer_foldl_getD5 prior (List.range 10) (List.replicate 10 0) (getD_replicate_zero 5)

lemma count_sequences_dyn_five (k : Nat) : count_sequences_dyn 5 (k + 1) = 0 := by
  rw [count_sequences_dyn_succ, Function.iterate_succ_apply']
  exact dyn_step_getD5 _

lemma dynZ_neg (start : Nat) (hops : Int) (h : hops < 0) :
    count_sequences_dynZ start hops = 0 := by
  rw [count_sequences_dynZ, dyn_loopZ, if_neg (by omega)]
  exact getD_replicate_zero start

/-! ### Matrix-power counter: bit decomposition -/

lemma natBits_zero : natBits 0 = [] := by
  rw [natBits]

lemma natBits_succ (n : Nat) : natBits (n + 1) = (n + 1) % 2 :: natBits ((n + 1) / 2) := by
  rw [natBits]

lemma bitsVal_natBits (n : Nat) : bitsVal (natBits n) = n := by
  induction n using Nat.strong_induction_on with
  | _ n ih =>
    match n with
    | 0 => rw [natBits_zero]; rfl
    | m + 1 =>
      rw [natBits_succ, bitsVal, ih ((m + 1) / 2) (by omega)]
      omega

lemma natBits_le_one (n : Nat) : ∀ b ∈ natBits n, b ≤ 1 := by
  induction n using Nat.strong_induction_on with
  | _ n ih =>
    match n with
    | 0 => rw [natBits_zero]; intro b hb; cases hb
    | m + 1 =>
      rw [natBits_succ]
      intro b hb
      rcases List.mem_cons.mp hb with h | h
      · omega
      · exact ih ((m + 1) / 2) (by omega) b h

lemma pyBits_cases (h : Nat) : ∃ b rest, pyBits h = b :: rest ∧ b ≤ 1 ∧
    (∀ x ∈ rest, x ≤ 1) ∧ b + 2 * bitsVal rest = h := by
  match h with
  | 0 =>
    refine ⟨0, [], ?_, by omega, ?_, ?_⟩
    · rw [pyBits, if_pos rfl]
    · intro x hx; cases hx
    · rfl
  | k + 1 =>
    refine ⟨(k + 1) % 2, natBits ((k + 1) / 2), ?_, by omega, ?_, ?_⟩
    · rw [pyBits, if_neg (by omega), natBits_succ]
    · exact natBits_le_one ((k + 1) / 2)
    · rw [bitsVal_natBits]; omega

lemma natBits_one : natBits 1 = [1] := by
  have h := natBits_succ 0
  norm_num at h
  rw [natBits_zero] at h
  exact h

lemma natBits_two : natBits 2 = [0, 1] := by
  have h := natBits_succ 1
  norm_num at h
  rw [natBits_one] at h
  exact h

lemma pyBits_one : pyBits 1 = [1] := by
  rw [pyBits, if_neg (by omega), natBits_one]

lemma pyBits_two : pyBits 2 = [0, 1] := by
  rw [pyBits, if_neg (by omega), natBits_two]

/-! ### Matrix-power counter: `matrix_multiply` as matrix product -/

lemma getD_mem_of_lt {α : Type} (l : List α) (i : Nat) (d : α) (h : i < l.length) :
    l.getD i d ∈ l := by
  rw [List.getD_eq_getElem?_getD, List.getElem?_eq_getElem h]
  exact List.getElem_mem h

lemma NEIGHBORS_MATRIX_wf : MatWF NEIGHBORS_MATRIX :=
  ⟨rfl, by decide⟩

lemma ident10_wf : MatWF ident10 :=
  ⟨rfl, by decide⟩

lemma toMat_ident10 : toMat ident10 = 1 := by decide

lemma matrix_multiply_wf (A B : List (List Nat)) (hA : MatWF A) (hB : MatWF B) :
    MatWF (matrix_multiply A B) := by
  obtain ⟨hA1, _⟩ := hA
  obtain ⟨hB1, hB2⟩ := hB
  have hBc : (B.getD 0 []).length = 10 :=
    hB2 _ (getD_mem_of_lt B 0 [] (by omega))
  constructor
  · simp [matrix_multiply, hA1]
  · intro r hr
    rw [matrix_multiply] at hr
    obtain ⟨row, _, hrow⟩ := List.mem_map.mp hr
    rw [← hrow, List.length_map, List.length_range, hBc]

lemma toMat_matrix_multiply (A B : List (List Nat)) (hA : MatWF A) (hB : MatWF B) :
    toMat (matrix_multiply A B) = toMat A * toMat B := by
  obtain ⟨hA1, _⟩ := hA
  obtain ⟨hB1, hB2⟩ := hB
  have hBc : (B.getD 0 []).length = 10 :=
    hB2 _ (getD_mem_of_lt B 0 [] (by omega))
  ext i j
  rw [Matrix.mul_apply]
  show ((matrix_multiply A B).getD i.val []).getD j.val 0 = _
  rw [matrix_multiply, hA1, hBc, hB1,
    getD_map_range 10 i.val _ [] i.isLt,
    getD_map_range 10 j.val _ 0 j.isLt,
    foldl_add_eq_sum, Nat.zero_add, sum_map_range,
    ← Fin.sum_univ_eq_sum_range (fun k => (A.getD i.val []).getD k 0 * (B.getD k []).getD j.val 0) 10]
  rfl

/-! ### Matrix-power counter: the squaring loop computes a power -/

lemma log_loop_spec (bs : List Nat) : ∀ (bn : Nat) (accum P : List (List Nat)),
    1 ≤ bn → MatWF accum → MatWF P → (∀ b ∈ bs, b ≤ 1) →
    MatWF (log_loop bs bn accum P) ∧
    toMat (log_loop bs bn accum P) =
      toMat accum * (toMat P * toMat P) ^ bitsVal bs := by
  induction bs with
  | nil =>
    intro bn accum P _ hacc _ _
    refine ⟨hacc, ?_⟩
    rw [log_loop, bitsVal, pow_zero, mul_one]
  | cons b rest ih =>
    intro bn accum P hbn hacc hP hb
    have hbn0 : bn ≠ 0 := by omega
    have hP2 : MatWF (matrix_multiply P P) := matrix_multiply_wf P P hP hP
    have htP2 : toMat (matrix_multiply P P) = toMat P * toMat P :=
      toMat_matrix_multiply P P hP hP
    have hb1 : b ≤ 1 := hb b (List.mem_cons_self b rest)
    have hrest : ∀ x ∈ rest, x ≤ 1 := fun x hx => hb x (List.mem_cons_of_mem b hx)
    rw [log_loop]
    rw [if_neg hbn0]
    interval_cases b
    · rw [if_neg (by omega)]
      obtain ⟨hwf, heq⟩ := ih (bn + 1) accum (matrix_multiply P P) (by omega) hacc hP2 hrest
      refine ⟨hwf, ?_⟩
      rw [heq, htP2, bitsVal]
      generalize toMat P * toMat P = X
      rw [← pow_two, ← pow_mul, Nat.zero_add]
    · rw [if_pos rfl]
      have hacc2 : MatWF (matrix_multiply accum (matrix_multiply P P)) :=
        matrix_multiply_wf _ _ hacc hP2
      obtain ⟨hwf, heq⟩ := ih (bn + 1) _ (matrix_multiply P P) (by omega) hacc2 hP2 hrest
      refine ⟨hwf, ?_⟩
      rw [heq, htP2, toMat_matrix_multiply _ _ hacc hP2, htP2, bitsVal]
      generalize toMat P * toMat P = X
      rw [← pow_two, ← pow_mul, mul_assoc, ← pow_succ', Nat.add_comm (2 * bitsVal rest) 1]

lemma log_loop_top (h : Nat) :
    MatWF (log_loop (pyBits h) 0 ident10 []) ∧
    toMat (log_loop (pyBits h) 0 ident10 []) = toMat NEIGHBORS_MATRIX ^ h := by
  obtain ⟨b, rest, hpb, hb1, hrest, hval⟩ := pyBits_cases h
  rw [hpb, log_loop]
  rw [if_pos rfl]
  interval_cases b
  · rw [if_neg (by omega)]
    obtain ⟨hwf, heq⟩ := log_loop_spec rest 1 ident10 NEIGHBORS_MATRIX (by omega)
      ident10_wf NEIGHBORS_MATRIX_wf hrest
    refine ⟨hwf, ?_⟩
    rw [heq, toMat_ident10, one_mul]
    generalize hX : toMat NEIGHBORS_MATRIX = X
    rw [← pow_two, ← pow_mul, ← Nat.zero_add (2 * bitsVal rest), hval]
  · rw [if_pos rfl]
    have hacc2 : MatWF (matrix_multiply ident10 NEIGHBORS_MATRIX) :=
      matrix_multiply_wf _ _ ident10_wf NEIGHBORS_MATRIX_wf
    obtain ⟨hwf, heq⟩ := log_loop_spec rest 1 _ NEIGHBORS_MATRIX (by omega)
      hacc2 NEIGHBORS_MATRIX_wf hrest
    refine ⟨hwf, ?_⟩
    rw [heq, toMat_matrix_multiply _ _ ident10_wf NEIGHBORS_MATRIX_wf, toMat_ident10, one_mul]
    generalize hX : toMat NEIGHBORS_MATRIX = X
    rw [← pow_two, ← pow_mul, ← pow_succ', Nat.add_comm (2 * bitsVal rest) 1, hval]

lemma count_sequences_log_rowsum (s h : Nat) (hs : s < 10) :
    count_sequences_log s h =
      ∑ j : Fin 10, toMat (log_loop (pyBits h) 0 ident10 []) ⟨s, hs⟩ j := by
  obtain ⟨⟨hlen, hrows⟩, _⟩ := log_loop_top h
  have hB0 : ((List.replicate 10 ([1] : List Nat)).getD 0 []).length = 1 := rfl
  have hBlen : (List.replicate 10 ([1] : List Nat)).length = 10 := rfl
  have hones : ∀ i < 10, ((List.replicate 10 ([1] : List Nat)).getD i []).getD 0 0 = 1 := by
    decide
  rw [count_sequences_log, matrix_multiply, hB0, hBlen, hlen,
    getD_map_range 10 s _ [] hs,
    getD_map_range 1 0 _ 0 (by omega),
    foldl_add_eq_sum, Nat.zero_add, sum_map_range,
    ← Fin.sum_univ_eq_sum_range (fun k =>
      ((log_loop (pyBits h) 0 ident10 []).getD s []).getD k 0 *
        ((List.replicate 10 ([1] : List Nat)).getD k []).getD 0 0) 10]
  apply Finset.sum_congr rfl
  intro k _
  show _ = ((log_loop (pyBits h) 0 ident10 []).getD s []).getD k.val 0
  rw [hones k.val k.isLt, mul_one]

/-! ### The isolated key 5 -/

lemma count_sequences_rec_five (k : Nat) : count_sequences_rec 5 (k + 1) = 0 := by
  rw [count_sequences_rec_succ]
  rfl

lemma toMat_NM_row5 : ∀ i : Fin 10, i.val = 5 → ∀ k : Fin 10,
    toMat NEIGHBORS_MATRIX i k = 0 := by decide

lemma count_sequences_log_five (k : Nat) : count_sequences_log 5 (k + 1) = 0 := by
  rw [count_sequences_log_rowsum 5 (k + 1) (by omega)]
  obtain ⟨_, heq⟩ := log_loop_top (k + 1)
  rw [heq]
  apply Finset.sum_eq_zero
  intro j _
  rw [pow_succ', Matrix.mul_apply]
  apply Finset.sum_eq_zero
  intro i _
  rw [toMat_NM_row5 _ rfl i, zero_mul]

/-! ### Claim theorems -/

/-- Claim C1 (status: code_bug).  The claim says all five counting
functions agree on every valid start and `0 ≤ hops ≤ 6`.  The code
violates it twice: `count_sequences_dyn` returns 0 instead of 1 at
`hops = 0` (the loop is skipped and the zero-initialized `current_case`
is read), and `count_sequences_log` returns 4 instead of 5 at
`(start, hops) = (3, 2)` because row 3 of `NEIGHBORS_MATRIX` encodes
edges `3-3, 3-8` instead of `3-4, 3-8`.  This theorem evaluates all five
functions at both failing inputs. -/
theorem claim_C1 :
    count_sequences 0 0 = 1 ∧ count_sequences_rec 0 0 = 1 ∧ count_sequences_mem 0 0 = 1 ∧
    count_sequences_log 0 0 = 1 ∧ count_sequences_dyn 0 0 = 0 ∧
    count_sequences 3 2 = 5 ∧ count_sequences_rec 3 2 = 5 ∧ count_sequences_mem 3 2 = 5 ∧
    count_sequences_dyn 3 2 = 5 ∧ count_sequences_log 3 2 = 4 := by
  refine ⟨by decide, by decide, by decide, by decide, count_sequences_dyn_zero 0,
    by decide, by decide, by decide, ?_, ?_⟩
  · rw [count_sequences_dyn_succ]
    decide
  · simp only [count_sequences_log, pyBits_two]
    decide

/-- Claim C2 (status: code_bug).  The claim says
`NEIGHBORS_MATRIX[i][j] = 1` iff `j` appears in `NEIGHBORS_MAP[i]`.  It
fails at row 3: the matrix entry `(3, 4)` is 0 although 4 is a listed
neighbor of 3, and the entry `(3, 3)` is 1 although 3 is not a neighbor
of itself. -/
theorem claim_C2 :
    (NEIGHBORS_MATRIX.getD 3 []).getD 4 0 = 0 ∧ 4 ∈ NEIGHBORS_MAP 3 ∧
    (NEIGHBORS_MATRIX.getD 3 []).getD 3 0 = 1 ∧ 3 ∉ NEIGHBORS_MAP 3 := by decide

/-- Claim C3 (status: code_bug).  The claim says every implementation
returns 1 at `hops = 0`; `count_sequences_dyn` instead returns 0, since
with `num_hops = 0` the `while` loop never runs and the function reads
the zero-initialized `current_case`, while the other four do return 1
(evaluated here at start key 6). -/
theorem claim_C3 :
    count_sequences_dyn 6 0 = 0 ∧ count_sequences 6 0 = 1 ∧ count_sequences_rec 6 0 = 1 ∧
    count_sequences_mem 6 0 = 1 ∧ count_sequences_log 6 0 = 1 :=
  ⟨count_sequences_dyn_zero 6, by decide, by decide, by decide, by decide⟩

/-- Claim C4 (status: code_bug).  The claim says every implementation's
output satisfies `count(p, h) = Σ_{n ∈ NEIGHBORS_MAP[p]} count(n, h-1)`
for `h ≥ 1`.  It fails for `count_sequences_dyn` at `(0, 1)` (left side
2, right side 0, because of the `hops = 0` bug) and for
`count_sequences_log` at `(3, 2)` (left side 4, right side 5, because
row 3 of `NEIGHBORS_MATRIX` disagrees with `NEIGHBORS_MAP`). -/
theorem claim_C4 :
    count_sequences_dyn 0 1 = 2 ∧
    ((neighbors 0).map (fun n => count_sequences_dyn n 0)).sum = 0 ∧
    count_sequences_log 3 2 = 4 ∧
    ((neighbors 3).map (fun n => count_sequences_log n 1)).sum = 5 := by
  refine ⟨?_, ?_, ?_, ?_⟩
  · rw [count_sequences_dyn_succ]
    decide
  · have h0 : neighbors 0 = [4, 6] := rfl
    rw [h0, List.map_cons, List.map_cons, List.map_nil,
      count_sequences_dyn_zero, count_sequences_dyn_zero]
    rfl
  · simp only [count_sequences_log, pyBits_two]
    decide
  · have h3 : neighbors 3 = [4, 8] := rfl
    rw [h3, List.map_cons, List.map_cons, List.map_nil]
    simp only [count_sequences_log, pyBits_one]
    decide

/-- Claim C5 (status: confirmed).  For every valid start key and every
hop count, the enumeration oracle `count_sequences`, the plain recursion
`count_sequences_rec` and the memoized recursion `count_sequences_mem`
return the same integer. -/
theorem claim_C5 : ∀ start hops : Nat, start < 10 →
    count_sequences start hops = count_sequences_rec start hops ∧
    count_sequences_rec start hops = count_sequences_mem start hops := by
  intro s h _
  exact ⟨count_sequences_eq_rec s h, (count_sequences_mem_eq_rec s h).symm⟩

/-- Witness for claim C5 at `(start, hops) = (6, 2)`. -/
theorem claim_C5_witness :
    count_sequences 6 2 = count_sequences_rec 6 2 ∧
    count_sequences_rec 6 2 = count_sequences_mem 6 2 :=
  claim_C5 6 2 (by decide)

/-- Claim C6 (status: code_bug).  The claim says `NEIGHBORS_MATRIX` is
symmetric; it is not: the entry `(3, 4)` is 0 while `(4, 3)` is 1,
because of the misplaced 1 in row 3. -/
theorem claim_C6 :
    (NEIGHBORS_MATRIX.getD 3 []).getD 4 0 = 0 ∧
    (NEIGHBORS_MATRIX.getD 4 []).getD 3 0 = 1 := by decide

/-- Counterexample to claim C7: called on a valid start key and the
negative hop count -1, `count_sequences_dyn` (with the Python-faithful
`Int` hop counter) does not fail with an invalid-hop-count error; it
returns the ordinary integer 0. -/
theorem claim_C7_counterexample : count_sequences_dynZ 0 (-1) = 0 :=
  dynZ_neg 0 (-1) (by omega)

/-- Claim C7 as amended (status: corrected).  No counting function
validates `hops`; in particular `count_sequences_dyn` silently returns 0
for every valid start and every negative hop count, because the loop
guard `current_num_hops <= num_hops` fails immediately and the
zero-initialized `current_case` entry is returned. -/
theorem claim_C7 : ∀ (start : Nat) (hops : Int), start < 10 → hops < 0 →
    count_sequences_dynZ start hops = 0 := by
  intro s hops _ hneg
  exact dynZ_neg s hops hneg

/-- Witness for claim C7 at `(start, hops) = (3, -2)`. -/
theorem claim_C7_witness : count_sequences_dynZ 3 (-2) = 0 :=
  claim_C7 3 (-2) (by decide) (by decide)

/-- Claim C8 (status: confirmed).  Key 5 has no outgoing edges (its
adjacency list is empty and row 5 of the matrix is all zeros), so for
every `hops ≥ 1` all five implementations return 0. -/
theorem claim_C8 : ∀ hops : Nat, 1 ≤ hops →
    count_sequences 5 hops = 0 ∧ count_sequences_rec 5 hops = 0 ∧
    count_sequences_mem 5 hops = 0 ∧ count_sequences_dyn 5 hops = 0 ∧
    count_sequences_log 5 hops = 0 := by
  intro hops h1
  obtain ⟨k, rfl⟩ : ∃ k, hops = k + 1 := ⟨hops - 1, by omega⟩
  refine ⟨?_, count_sequences_rec_five k, ?_, count_sequences_dyn_five k,
    count_sequences_log_five k⟩
  · rw [count_sequences_eq_rec]
    exact count_sequences_rec_five k
  · rw [count_sequences_mem_eq_rec]
    exact count_sequences_rec_five k

/-- Witness for claim C8 at `hops = 3`. -/
theorem claim_C8_witness :
    count_sequences 5 3 = 0 ∧ count_sequences_rec 5 3 = 0 ∧ count_sequences_mem 5 3 = 0 ∧
    count_sequences_dyn 5 3 = 0 ∧ count_sequences_log 5 3 = 0 :=
  claim_C8 3 (by decide)

/-- Counterexample to claim C9: the helper called on `(1, 0)` with an
empty cache misses the cache, yet after the call the key `(1, 0)` is
still absent — the `num_hops == 0` branch returns 1 without storing
anything, contradicting the claim for `h = 0`. -/
theorem claim_C9_counterexample : cache_lookup (helper 1 0 []).2 (1, 0) = none := by decide

/-- Claim C9 as amended (status: corrected).  For `h ≥ 1`, whenever the
helper is called on `(p, h)` and the key is not in the cache, the
computed result is stored under `(p, h)` before the helper returns; a
call with `h = 0` returns the cache unchanged; cache keys stay
duplicate-free (each key is inserted at most once); every key present
after a call was either already present or has hop count at least 1; and
the cache only grows (entries are never evicted). -/
theorem claim_C9 : ∀ (p h : Nat) (c : Cache),
    (cache_lookup c (p, h + 1) = none →
      cache_lookup (helper p (h + 1) c).2 (p, h + 1) = some (helper p (h + 1) c).1) ∧
    (helper p 0 c).2 = c ∧
    ((cacheKeys c).Nodup → (cacheKeys (helper p h c).2).Nodup) ∧
    (∀ k ∈ cacheKeys (helper p h c).2, k ∈ cacheKeys c ∨ 1 ≤ k.2) ∧
    ∃ pre, (helper p h c).2 = pre ++ c := by
  intro p h c
  obtain ⟨pre, he, hk, hn⟩ := helper_cache_inv h p c
  refine ⟨?_, ?_, ?_, ?_, pre, he⟩
  · intro hl
    rw [helper, hl]
    rw [cache_lookup, if_pos rfl]
  · rw [helper]
    rcases hl : cache_lookup c (p, 0) with _ | v
    · rfl
    · rfl
  · intro hnod
    rw [he, cacheKeys_append, List.nodup_append]
    exact ⟨hn, hnod, fun a ha hb => (hk a ha).2.2 hb⟩
  · intro k hk'
    rw [he, cacheKeys_append] at hk'
    rcases List.mem_append.mp hk' with h' | h'
    · exact Or.inr (hk k h').1
    · exact Or.inl h'

/-- Witness for claim C9 at `p = 6`, `h = 0`, the empty cache. -/
theorem claim_C9_witness :
    cache_lookup (helper 6 1 []).2 (6, 1) = some (helper 6 1 []).1 ∧
    (helper 6 0 []).2 = [] ∧
    (cacheKeys (helper 6 0 []).2).Nodup ∧
    (∀ k ∈ cacheKeys (helper 6 0 []).2, k ∈ cacheKeys ([] : Cache) ∨ 1 ≤ k.2) ∧
    ∃ pre, (helper 6 0 []).2 = pre ++ [] :=
  ⟨(claim_C9 6 0 []).1 (by decide), (claim_C9 6 0 []).2.1,
    (claim_C9 6 0 []).2.2.1 (by decide), (claim_C9 6 0 []).2.2.2.1,
    (claim_C9 6 0 []).2.2.2.2⟩

/-- Claim C10 (status: confirmed).  The adjacency list itself is
symmetric: for all keys `i, j` in `0..9`, `j` appears in
`NEIGHBORS_MAP[i]` iff `i` appears in `NEIGHBORS_MAP[j]`. -/
theorem claim_C10 : ∀ i < 10, ∀ j < 10,
    (j ∈ NEIGHBORS_MAP i ↔ i ∈ NEIGHBORS_MAP j) := by decide

/-- Witness for claim C10 at the edge `(0, 4)`. -/
theorem claim_C10_witness : 4 ∈ NEIGHBORS_MAP 0 ↔ 0 ∈ NEIGHBORS_MAP 4 :=
  claim_C10 0 (by decide) 4 (by decide)
